import Mathlib

/-!
Shallow embedding of the function-composition core of the `alnr` C++ utility
library (`alnr_functional.hpp`, two revisions) and proofs of the specified
properties of the composition combinator.

The stage list `std::tuple<Fs...>` of a composition is embedded as a
type-aligned inductive chain.  The C++ compile-time recursion
`tuple_exec_rtl<N>` / `tuple_exec_ltr<N>` peels the highest-index (i.e.
last-declared) stage off the tuple at each step, with `tuple_exec_*<0>`
(the first-declared stage) as the base case; accordingly the chain is built
by `snoc`, attaching stages of increasing index, so that the Lean structural
recursion is exactly the C++ index recursion.

The argument pack `(Arg&& arg, Args&&... args)` accepted by the terminal
stage is embedded as a single bundle type `α`; a two-argument pack is the
bundle `α₁ × α₂` (see `composed.call2`).  `RETURNS_DECAY` applies
`std::decay` to each intermediate result, which is the identity at the level
of values, so it leaves no trace in the embedding.
-/

namespace alnr

/-- Type-aligned stage list of a right-leaning composition, in declaration
order: `base f₀` is the single-element tuple `(f₀)`; `snoc pre fN` appends
the stage of highest index `N` (the last-declared stage, the first to
execute) to the tuple embedded by `pre`.  `ChainR α β` is the stage tuple of
a composition taking the argument bundle `α` to the result type `β`: the
last-declared stage maps `α` to the input of the next stage, and the
first-declared stage `f₀` returns `β`. -/
inductive ChainR : Type → Type → Type 1
  | base : {α β : Type} → (α → β) → ChainR α β
  | snoc : {α γ β : Type} → ChainR γ β → (α → γ) → ChainR α β

/-- Embedding of `detail::tuple_exec_rtl<N>::exec(tup, arg, args...)`
(second revision, lines 445–463; the first revision's `tuple_exec_rtl`,
lines 181–213, has the same recursion): the base case `tuple_exec_rtl<0>`
applies `std::get<0>(tup)` to the full argument pack; the step case passes
the pack to `std::get<N>(tup)` (the last-declared stage) and recurses on the
remaining stages with that stage's single result. -/
def tuple_exec_rtl : {α β : Type} → ChainR α β → α → β
  | _, _, .base f, a => f a
  | _, _, .snoc pre fN, a => tuple_exec_rtl pre (fN a)

/-- Embedding of `struct composed` (second revision): it stores the stage
tuple `std::tuple<Fs...> fs` and nothing else. -/
structure composed (α β : Type) : Type 1 where
  fs : ChainR α β

/-- Embedding of `composed::operator()(Arg&& arg, Args&&... args)` (second
revision): forwards the stored tuple and the argument pack to
`detail::tuple_exec_rtl<sizeof...(Fs)-1>::exec`. -/
def composed.call {α β : Type} (c : composed α β) (a : α) : β :=
  tuple_exec_rtl c.fs a

/-- Embedding of `compose(F f)` at one stage (second revision, lines
483–487): builds `composed` from the moved-in stage. -/
def compose1 {α β : Type} (f : α → β) : composed α β :=
  ⟨.base f⟩

/-- Embedding of `compose(F f, Fs... fs)` at two stages: the stage tuple is
`(f, g)` in declaration order, `g` being the last-declared stage. -/
def compose2 {α γ β : Type} (f : γ → β) (g : α → γ) : composed α β :=
  ⟨.snoc (.base f) g⟩

/-- Embedding of `compose(F f, Fs... fs)` at three stages: the stage tuple
is `(f, g, h)` in declaration order, `h` being the last-declared stage. -/
def compose3 {α γ δ β : Type} (f : δ → β) (g : γ → δ) (h : α → γ) : composed α β :=
  ⟨.snoc (.snoc (.base f) g) h⟩

/-- Embedding of `composed::operator()` at a two-argument call site: the
parameter list `(Arg&& arg, Args&&... args)` binds `arg = a₁` and
`args... = a₂`, and both are forwarded in declaration order to
`tuple_exec_rtl`, bundled here as the pair `(a₁, a₂)`. -/
def composed.call2 {α₁ α₂ β : Type} (c : composed (α₁ × α₂) β) (a₁ : α₁) (a₂ : α₂) : β :=
  tuple_exec_rtl c.fs (a₁, a₂)

/-- Type-aligned stage list of a left-leaning composition (first revision),
in declaration order: `base f₀` is the tuple `(f₀)` whose single stage takes
the argument bundle `α`; `snoc pre fN` appends the last-declared stage `fN`,
which here executes last, consuming the result of the stages in `pre`. -/
inductive ChainL : Type → Type → Type 1
  | base : {α β : Type} → (α → β) → ChainL α β
  | snoc : {α γ β : Type} → ChainL α γ → (γ → β) → ChainL α β

/-- Embedding of `detail::tuple_exec_ltr<N>::exec(tup, arg, args...)` (first
revision, lines 147–179): the base case `tuple_exec_ltr<0>` applies
`std::get<0>(tup)` (the first-declared stage) to the full argument pack; the
step case applies `std::get<N>(tup)` to the single result of recursing on
the lower-index stages. -/
def tuple_exec_ltr : {α β : Type} → ChainL α β → α → β
  | _, _, .base f, a => f a
  | _, _, .snoc pre fN, a => fN (tuple_exec_ltr pre a)

/-- Embedding of `struct composed_ltr` (first revision): stores the stage
tuple. -/
structure composed_ltr (α β : Type) : Type 1 where
  fs : ChainL α β

/-- Embedding of `composed_ltr::operator()(Arg&& arg, Args&&... args)`
(first revision, lines 226–238; the `const` overload is identical at the
level of values): forwards the tuple and the pack to
`detail::tuple_exec_ltr<sizeof...(Fs)-1>::exec`. -/
def composed_ltr.call {α β : Type} (c : composed_ltr α β) (a : α) : β :=
  tuple_exec_ltr c.fs a

/-- Embedding of `compose_l(F f, Fs... fs)` at three stages (first
revision, lines 265–269): the stage tuple is `(f, g, h)` in declaration
order; for the left-leaning direction `f` executes first. -/
def compose_l3 {α γ δ β : Type} (f : α → γ) (g : γ → δ) (h : δ → β) : composed_ltr α β :=
  ⟨.snoc (.snoc (.base f) g) h⟩

/-- Embedding of the first revision's `detail::tuple_exec_rtl<N>::exec`
(lines 181–213).  Its recursion is the same as the second revision's; the
two differ only in that the first revision takes the tuple by (const)
lvalue reference and returns without `std::decay`, which does not affect
values.  It is kept as a separate definition so that the equivalence of the
two revisions is a theorem, not a definitional identity by fiat. -/
def tuple_exec_rtl_v1 : {α β : Type} → ChainR α β → α → β
  | _, _, .base f, a => f a
  | _, _, .snoc pre fN, a => tuple_exec_rtl_v1 pre (fN a)

/-- Embedding of `struct composed_rtl` (first revision): stores the stage
tuple. -/
structure composed_rtl (α β : Type) : Type 1 where
  fs : ChainR α β

/-- Embedding of `composed_rtl::operator()(Arg&& arg, Args&&... args)`
(first revision, lines 250–262; the `const` overload is identical at the
level of values). -/
def composed_rtl.call {α β : Type} (c : composed_rtl α β) (a : α) : β :=
  tuple_exec_rtl_v1 c.fs a

/-- Embedding of `compose_r(F f, Fs... fs)` at three stages (first
revision, lines 271–275). -/
def compose_r3 {α γ δ β : Type} (f : δ → β) (g : γ → δ) (h : α → γ) : composed_rtl α β :=
  ⟨.snoc (.snoc (.base f) g) h⟩

/-- Stage list of a right-leaning composition whose stages may fail, i.e.
throw in C++: a stage is a function into `Except ε`.  The combinator's own
source contains no `try`/`catch`, so the exceptional reading of its call
chain is fixed entirely by the host semantics of a call expression: if the
callee throws, the surrounding expression is abandoned and the exception
propagates. -/
inductive ChainRE (ε : Type) : Type → Type → Type 1
  | base : {α β : Type} → (α → Except ε β) → ChainRE ε α β
  | snoc : {α γ β : Type} → ChainRE ε γ β → (α → Except ε γ) → ChainRE ε α β

/-- Exceptional reading of `detail::tuple_exec_rtl<N>::exec`: in the step
case the argument expression `std::get<N>(tup)(arg, args...)` is evaluated
first; if it throws, the enclosing call `tuple_exec_rtl<N-1>::exec(...)`
never starts and the exception escapes unchanged (there is no handler in
`exec`, in `composed::operator()`, or in `compose`). -/
def tuple_exec_rtlE {ε : Type} : {α β : Type} → ChainRE ε α β → α → Except ε β
  | _, _, .base f, a => f a
  | _, _, .snoc pre fN, a =>
      match fN a with
      | .error e => .error e
      | .ok v => tuple_exec_rtlE pre v

/-- Stage list of a right-leaning composition whose stages may have side
effects on an ambient state `σ`: a stage maps its argument and the state
before its call to its result and the state after. -/
inductive ChainRS (σ : Type) : Type → Type → Type 1
  | base : {α β : Type} → (α → σ → β × σ) → ChainRS σ α β
  | snoc : {α γ β : Type} → ChainRS σ γ β → (α → σ → γ × σ) → ChainRS σ α β

/-- Stateful reading of `detail::tuple_exec_rtl<N>::exec`: the argument
expression `std::get<N>(tup)(arg, args...)` of the step case is a function
argument, so it is fully evaluated — effects included — before the
recursive call runs on its result. -/
def tuple_exec_rtlS {σ : Type} : {α β : Type} → ChainRS σ α β → α → σ → β × σ
  | _, _, .base f, a, s => f a s
  | _, _, .snoc pre fN, a, s =>
      let r := fN a s
      tuple_exec_rtlS pre r.1 r.2

/-- Stage list of a left-leaning composition with side effects on `σ`. -/
inductive ChainLS (σ : Type) : Type → Type → Type 1
  | base : {α β : Type} → (α → σ → β × σ) → ChainLS σ α β
  | snoc : {α γ β : Type} → ChainLS σ α γ → (γ → σ → β × σ) → ChainLS σ α β

/-- Stateful reading of `detail::tuple_exec_ltr<N>::exec`: the inner
recursive call `tuple_exec_ltr<N-1>::exec(tup, arg, args...)` is evaluated
— effects included — before `std::get<N>(tup)` is applied to its result. -/
def tuple_exec_ltrS {σ : Type} : {α β : Type} → ChainLS σ α β → α → σ → β × σ
  | _, _, .base f, a, s => f a s
  | _, _, .snoc pre fN, a, s =>
      let r := tuple_exec_ltrS pre a s
      fN r.1 r.2

/-- Number of stages of a right-leaning stage tuple, `sizeof...(Fs)`. -/
def ChainR.length : {α β : Type} → ChainR α β → Nat
  | _, _, .base _ => 1
  | _, _, .snoc pre _ => pre.length + 1

/-- Number of stages of a left-leaning stage tuple, `sizeof...(Fs)`. -/
def ChainL.length : {α β : Type} → ChainL α β → Nat
  | _, _, .base _ => 1
  | _, _, .snoc pre _ => pre.length + 1

/-- Instrumentation of a pure right-leaning stage tuple: the stage of tuple
index `i` keeps its pure value behaviour and additionally appends `i` to a
log when (and only when) it is called.  Used to observe which stages run,
how often, and in which order. -/
def ChainR.withLog : {α β : Type} → ChainR α β → ChainRS (List Nat) α β
  | _, _, .base f => .base (fun a s => (f a, s ++ [0]))
  | _, _, .snoc pre fN => .snoc pre.withLog (fun a s => (fN a, s ++ [pre.length]))

/-- Instrumentation of a pure left-leaning stage tuple, logging each
stage's tuple index when it is called. -/
def ChainL.withLog : {α β : Type} → ChainL α β → ChainLS (List Nat) α β
  | _, _, .base f => .base (fun a s => (f a, s ++ [0]))
  | _, _, .snoc pre fN => .snoc pre.withLog (fun a s => (fN a, s ++ [pre.length]))

/-- Reading of a pure stage tuple in the stateful model: every stage leaves
the ambient state untouched.  This is the premise "all stages are pure" of
the re-invocation property. -/
def ChainR.liftPure : {α β : Type} → ChainR α β → ChainRS σ α β
  | _, _, .base f => .base (fun a s => (f a, s))
  | _, _, .snoc pre fN => .snoc pre.liftPure (fun a s => (fN a, s))

/-- Embedding of the constructor `composed(Fs... fs)` in the stateful
model, as a state transformer so that "constructing runs no stage" is a
statement and not a typing accident: the member initializer
`fs(std::make_tuple(std::move(fs)...))` only moves the stages into the
stored tuple — it contains no call to any stage — so the ambient state is
returned unchanged and the stages are stored verbatim. -/
def composedS.construct {σ α β : Type} (stages : ChainRS σ α β) (s : σ) :
    ChainRS σ α β × σ :=
  (stages, s)

/-- Shapes of argument-type lists matched by the invocation operator of
`composed`, `composed_rtl` and `composed_ltr`: each declares the single
overload (pattern) `template<typename Arg, typename... Args> auto
operator()(Arg&& arg, Args&&... args)`, whose parameter list binds one
mandatory first argument plus a possibly-empty trailing pack, i.e. it is
viable exactly for a non-empty argument list. -/
def operatorCallViable : List Type → Bool
  | [] => false
  | _ :: _ => true

namespace math

/-- Embedding of `alnr::math::hypot<>::operator()(t, u)`, which forwards to
`std::hypot(t, u)`.  `std::hypot` is the C library, not code of this
repository; it is modelled exactly as `√(x² + y²)` over `ℚ` via `Rat.sqrt`,
which agrees with the mathematical function whenever `x² + y²` is a perfect
square — in particular at the specified example `(3, -4)`. -/
def hypot (x y : ℚ) : ℚ :=
  Rat.sqrt (x ^ 2 + y ^ 2)

/-- Embedding of `alnr::math::abs<>::operator()(t)`, which forwards to
`std::abs(t)`, modelled as the absolute value on `ℚ`. -/
def abs (x : ℚ) : ℚ :=
  |x|

end math

/-- Unfolding law for the step case of the second revision's
`tuple_exec_rtl`. -/
theorem tuple_exec_rtl_snoc {α γ β : Type} (pre : ChainR γ β) (fN : α → γ) (a : α) :
    tuple_exec_rtl (.snoc pre fN) a = tuple_exec_rtl pre (fN a) :=
  rfl

/-- First and second revisions compute the same value on every stage tuple
and argument. -/
theorem tuple_exec_rtl_v1_eq {α β : Type} (c : ChainR α β) (a : α) :
    tuple_exec_rtl_v1 c a = tuple_exec_rtl c a := by
  induction c with
  | base f => rfl
  | snoc pre fN ih => exact ih (fN a)

/-- Running an index-logging instrumentation of a pure right-leaning stage
tuple yields the pure result and appends to the log exactly the stage
indices `N-1, …, 1, 0`, i.e. each stage once, last-declared first. -/
theorem tuple_exec_rtlS_withLog {α β : Type} (c : ChainR α β) (a : α) (s : List Nat) :
    tuple_exec_rtlS c.withLog a s
      = (tuple_exec_rtl c a, s ++ (List.range c.length).reverse) := by
  induction c generalizing s with
  | base f => simp [ChainR.withLog, tuple_exec_rtlS, tuple_exec_rtl, ChainR.length, List.range_succ, List.range_zero]
  | snoc pre fN ih =>
      simp [ChainR.withLog, tuple_exec_rtlS, tuple_exec_rtl, ChainR.length, ih,
        List.range_succ]

/-- Running an index-logging instrumentation of a pure left-leaning stage
tuple yields the pure result and appends to the log exactly the stage
indices `0, 1, …, N-1`, i.e. each stage once, first-declared first. -/
theorem tuple_exec_ltrS_withLog {α β : Type} (c : ChainL α β) (a : α) (s : List Nat) :
    tuple_exec_ltrS c.withLog a s
      = (tuple_exec_ltr c a, s ++ List.range c.length) := by
  induction c generalizing s with
  | base f => simp [ChainL.withLog, tuple_exec_ltrS, tuple_exec_ltr, ChainL.length, List.range_succ, List.range_zero]
  | snoc pre fN ih =>
      simp [ChainL.withLog, tuple_exec_ltrS, tuple_exec_ltr, ChainL.length, ih,
        List.range_succ]

/-- Running a pure stage tuple in the stateful model yields the pure result
and leaves the ambient state untouched. -/
theorem tuple_exec_rtlS_liftPure {σ α β : Type} (c : ChainR α β) (a : α) (s : σ) :
    tuple_exec_rtlS c.liftPure a s = (tuple_exec_rtl c a, s) := by
  induction c generalizing s with
  | base f => rfl
  | snoc pre fN ih => exact ih (fN a) s

/-- Every stage tuple has at least one stage. -/
theorem ChainR.length_pos {α β : Type} (c : ChainR α β) : 0 < c.length := by
  cases c with
  | base f => exact Nat.one_pos
  | snoc pre fN => exact Nat.succ_pos _

/-- Claim C1: right-leaning composition law — `compose(f, g, h)(x) = f (g (h x))`
for all compatible stages and inputs; in general (second and third
conjuncts) the last-declared stage executes first on the raw input, each
preceding stage consumes the single result of the next-later stage, and the
first-declared stage's result is the overall result. -/
theorem c1_right_leaning_composition_law :
    (∀ (α γ δ β : Type) (f : δ → β) (g : γ → δ) (h : α → γ) (x : α),
      (compose3 f g h).call x = f (g (h x))) ∧
    (∀ (α γ β : Type) (pre : ChainR γ β) (hN : α → γ) (x : α),
      composed.call ⟨ChainR.snoc pre hN⟩ x = composed.call ⟨pre⟩ (hN x)) ∧
    (∀ (α β : Type) (f : α → β) (x : α), composed.call ⟨ChainR.base f⟩ x = f x) :=
  ⟨fun _ _ _ _ _ _ _ _ => rfl, fun _ _ _ _ _ _ => rfl, fun _ _ _ _ => rfl⟩

/-- Claim C2: arity pass-through — when the terminal (first-executing) stage
is binary, a two-argument invocation applies both arguments to it in
declaration order, whether or not further stages follow; in particular
`compose(abs, hypot)(3, -4) = abs (hypot 3 (-4)) = 5`. -/
theorem c2_arity_pass_through :
    (∀ (α₁ α₂ γ β : Type) (pre : ChainR γ β) (h : α₁ → α₂ → γ) (a₁ : α₁) (a₂ : α₂),
      composed.call2 ⟨ChainR.snoc pre fun p => h p.1 p.2⟩ a₁ a₂
        = tuple_exec_rtl pre (h a₁ a₂)) ∧
    (∀ (α₁ α₂ β : Type) (h : α₁ → α₂ → β) (a₁ : α₁) (a₂ : α₂),
      composed.call2 ⟨ChainR.base fun p => h p.1 p.2⟩ a₁ a₂ = h a₁ a₂) ∧
    (composed.call2 (compose2 math.abs fun p => math.hypot p.1 p.2) 3 (-4)
        = math.abs (math.hypot 3 (-4))) ∧
    math.abs (math.hypot 3 (-4)) = 5 := by
  refine ⟨fun _ _ _ _ _ _ _ _ => rfl, fun _ _ _ _ _ _ => rfl, rfl, ?_⟩
  have h : math.hypot 3 (-4) = 5 := by
    have h25 : ((3 : ℚ) ^ 2 + (-4 : ℚ) ^ 2) = 5 * 5 := by norm_num
    rw [math.hypot, h25, Rat.sqrt_eq]
    norm_num
  rw [h, math.abs]
  norm_num

/-- Claim C3: left-leaning composition law — `compose_l(f, g, h)(x) = h (g (f x))`
for all compatible stages and inputs; in general the first-declared stage
executes first on the raw input, each later stage consumes the prior
stage's single result, and the last-declared stage's result is the overall
result. -/
theorem c3_left_leaning_composition_law :
    (∀ (α γ δ β : Type) (f : α → γ) (g : γ → δ) (h : δ → β) (x : α),
      (compose_l3 f g h).call x = h (g (f x))) ∧
    (∀ (α γ β : Type) (pre : ChainL α γ) (fN : γ → β) (x : α),
      composed_ltr.call ⟨ChainL.snoc pre fN⟩ x = fN (composed_ltr.call ⟨pre⟩ x)) ∧
    (∀ (α β : Type) (f : α → β) (x : α), composed_ltr.call ⟨ChainL.base f⟩ x = f x) := by
  refine ⟨?_, ?_, ?_⟩
  · intro α γ δ β f g h x
    simp [compose_l3, composed_ltr.call, tuple_exec_ltr]
  · intro α γ β pre fN x
    simp [composed_ltr.call, tuple_exec_ltr]
  · intro α β f x
    simp [composed_ltr.call, tuple_exec_ltr]

/-- Claim C4: the first revision's `compose_r` / `composed_rtl` and the
second revision's `compose` / `composed` compute the same value on every
stage tuple and every argument. -/
theorem c4_compose_r_equivalent_to_compose :
    (∀ (α β : Type) (c : ChainR α β) (a : α),
      composed_rtl.call ⟨c⟩ a = composed.call ⟨c⟩ a) ∧
    (∀ (α γ δ β : Type) (f : δ → β) (g : γ → δ) (h : α → γ) (x : α),
      (compose_r3 f g h).call x = (compose3 f g h).call x) := by
  constructor
  · intro α β c a
    exact tuple_exec_rtl_v1_eq c a
  · intro α γ δ β f g h x
    exact tuple_exec_rtl_v1_eq (.snoc (.snoc (.base f) g) h) x

/-- Claim C5: stage-failure propagation — if the terminal stage fails, the
composition returns exactly that failure and the remaining stages are never
consulted (first conjunct holds for every `pre`); if a later-executing
prefix of stages fails after the terminal stage succeeded, that failure is
returned unchanged (second conjunct); a failing single stage's error is
returned unchanged (third conjunct).  In every case the result is the
stage's own error value, untransformed, and no partial result appears in
the output. -/
theorem c5_stage_failure_propagation :
    (∀ (ε α γ β : Type) (pre : ChainRE ε γ β) (fN : α → Except ε γ) (a : α) (e : ε),
      fN a = Except.error e → tuple_exec_rtlE (ChainRE.snoc pre fN) a = Except.error e) ∧
    (∀ (ε α γ β : Type) (pre : ChainRE ε γ β) (fN : α → Except ε γ) (a : α) (v : γ) (e : ε),
      fN a = Except.ok v → tuple_exec_rtlE pre v = Except.error e →
        tuple_exec_rtlE (ChainRE.snoc pre fN) a = Except.error e) ∧
    (∀ (ε α β : Type) (f : α → Except ε β) (a : α) (e : ε),
      f a = Except.error e → tuple_exec_rtlE (ChainRE.base f) a = Except.error e) := by
  refine ⟨?_, ?_, ?_⟩
  · intro ε α γ β pre fN a e he
    simp [tuple_exec_rtlE, he]
  · intro ε α γ β pre fN a v e hok herr
    simp [tuple_exec_rtlE, hok, herr]
  · intro ε α β f a e he
    simp [tuple_exec_rtlE, he]

/-- Witness for the stage-failure propagation theorem: a failing terminal
stage, a failing non-terminal stage, and a failing single stage, each at a
concrete input, each yielding exactly the stage's error. -/
theorem c5_stage_failure_propagation_witness :
    tuple_exec_rtlE (ChainRE.snoc (ChainRE.base fun n : Nat => Except.ok (n + 1))
        (fun _ : Nat => Except.error 7)) 0 = Except.error 7 ∧
    tuple_exec_rtlE (ChainRE.snoc (ChainRE.base fun _ : Nat => (Except.error 9 : Except Nat Nat))
        (fun n : Nat => Except.ok (n + 1))) 0 = Except.error 9 ∧
    tuple_exec_rtlE (ChainRE.base fun _ : Nat => (Except.error 3 : Except Nat Nat)) 0
      = Except.error 3 :=
  ⟨c5_stage_failure_propagation.1 _ _ _ _ _ _ 0 7 rfl,
   c5_stage_failure_propagation.2.1 _ _ _ _ _ _ 0 1 9 rfl rfl,
   c5_stage_failure_propagation.2.2 _ _ _ _ 0 3 rfl⟩

/-- Claim C6: exactly-once, in-order stage execution — instrumenting every
stage of a pure composition to log its tuple index shows that an invocation
appends to the log exactly the indices `N-1, …, 1, 0` (each stage once,
last-declared first) for the right-leaning form, and exactly `0, 1, …, N-1`
(each stage once, first-declared first) for the left-leaning form, while the
returned value is the pure composition result, so the combinator introduces
no effects of its own. -/
theorem c6_exactly_once_in_order :
    (∀ (α β : Type) (c : ChainR α β) (a : α) (s : List Nat),
      tuple_exec_rtlS c.withLog a s
        = (tuple_exec_rtl c a, s ++ (List.range c.length).reverse)) ∧
    (∀ (α β : Type) (c : ChainL α β) (a : α) (s : List Nat),
      tuple_exec_ltrS c.withLog a s
        = (tuple_exec_ltr c a, s ++ List.range c.length)) :=
  ⟨fun _ _ c a s => tuple_exec_rtlS_withLog c a s,
   fun _ _ c a s => tuple_exec_ltrS_withLog c a s⟩

/-- Claim C7: single-stage identity law — a composition of exactly one
stage, in either revision and either direction, returns exactly what the
stage itself returns on every valid input. -/
theorem c7_single_stage_identity :
    (∀ (α β : Type) (f : α → β) (a : α), (compose1 f).call a = f a) ∧
    (∀ (α β : Type) (f : α → β) (a : α), composed_rtl.call ⟨ChainR.base f⟩ a = f a) ∧
    (∀ (α β : Type) (f : α → β) (a : α), composed_ltr.call ⟨ChainL.base f⟩ a = f a) := by
  refine ⟨fun _ _ _ _ => rfl, fun _ _ _ _ => rfl, ?_⟩
  intro α β f a
  simp [composed_ltr.call, tuple_exec_ltr]

/-- Claim C8: invocation is non-mutating and repeatable — with all stages
pure, an invocation run in the stateful model returns the pure result and
leaves every ambient state (stage storage, any would-be counter or cache)
exactly as it was, in both revisions; consequently a second invocation with
the same argument, run from the state left by the first, returns the same
result. -/
theorem c8_invocation_non_mutating_repeatable :
    ∀ (σ α β : Type) (c : ChainR α β) (a : α) (s : σ),
      tuple_exec_rtlS c.liftPure a s = (composed.call ⟨c⟩ a, s) ∧
      tuple_exec_rtlS c.liftPure a s = (composed_rtl.call ⟨c⟩ a, s) ∧
      (tuple_exec_rtlS c.liftPure a (tuple_exec_rtlS c.liftPure a s).2).1
        = (tuple_exec_rtlS c.liftPure a s).1 := by
  intro σ α β c a s
  have h := tuple_exec_rtlS_liftPure c a s
  refine ⟨h, ?_, ?_⟩
  · rw [h]
    exact congrArg (fun r => (r, s)) (tuple_exec_rtl_v1_eq c a).symm
  · rw [h]
    exact congrArg Prod.fst (tuple_exec_rtlS_liftPure c a s)

/-- Claim C9: lazy construction — the constructor of a Composition Value
only stores its stages: it returns the ambient state unchanged for every
stage list and every state (first conjunct), so no stage effect runs and no
stage result is computed at construction; stages run only at invocation,
which (second conjunct) does change the ambient state as soon as the stages
have observable effects, here index logging. -/
theorem c9_lazy_construction :
    (∀ (σ α β : Type) (stages : ChainRS σ α β) (s : σ),
      (composedS.construct stages s).2 = s ∧ (composedS.construct stages s).1 = stages) ∧
    (∀ (α β : Type) (c : ChainR α β) (a : α) (s : List Nat),
      (tuple_exec_rtlS (composedS.construct c.withLog s).1 a s).2 ≠ s) := by
  constructor
  · intro σ α β stages s
    exact ⟨rfl, rfl⟩
  · intro α β c a s
    have hlen := ChainR.length_pos c
    have hrun : (composedS.construct c.withLog s).1 = c.withLog := rfl
    rw [hrun, tuple_exec_rtlS_withLog]
    intro hcontra
    have hl := congrArg List.length hcontra
    simp [List.length_append] at hl
    omega

/-- Claim C10: every invocation needs at least one argument — the single
invocation-operator overload shared by `composed`, `composed_rtl` and
`composed_ltr` binds one mandatory first parameter plus a trailing pack, so
it is viable for every non-empty argument-type list and not viable for the
empty one: a composition can never be invoked with zero arguments. -/
theorem c10_invocation_requires_first_argument :
    operatorCallViable [] = false ∧
    ∀ (τ : Type) (τs : List Type), operatorCallViable (τ :: τs) = true :=
  ⟨rfl, fun _ _ => rfl⟩

end alnr
